import Mathlib

/-!
Verification of the workflow automation engine (trigger/src) of the
vector-crm repository.  The definitions below are a shallow embedding of
`src/trigger/src/jobs/workflow-runner.ts` and of
`loadMatchingAutomations` in `src/trigger/src/lib/supabase.ts`.

Modelling conventions:
* JavaScript runtime values are the inductive `Value` (objects are
  association lists in insertion order); `Option Value` stands for a
  possibly-`undefined` value (`none` = `undefined`).
* JavaScript numbers are `JNum`: either an integer or `NaN`.  The delay
  and comparison arithmetic of the source only ever multiplies and adds,
  and every numeric literal in the relevant code is an integer, so
  integers with an explicit `NaN` element are a faithful carrier.
* External side effects (the Supabase writes, Twilio, fetch) are not
  executed; the orchestrator records what it would write (step logs, run
  status) and an environment function supplies each Action step's
  dispatcher outcome (`Except` models a thrown error).
-/

namespace VectorCrm

/-- JavaScript-like runtime values (the JSON fragment the engine handles). -/
inductive Value where
  | vNull : Value
  | vBool : Bool → Value
  | vNum : Int → Value
  | vStr : String → Value
  | vObj : List (String × Value) → Value

/-- Property lookup on a JS object: first binding wins; a missing key is
`undefined` (`none`). -/
def jsGet : List (String × Value) → String → Option Value
  | [], _ => none
  | (k, v) :: rest, key => if k = key then some v else jsGet rest key

/-- JavaScript truthiness of a defined value. -/
def jsTruthy : Value → Bool
  | .vNull => false
  | .vBool b => b
  | .vNum i => i != 0
  | .vStr s => s != ""
  | .vObj _ => true

/-- JavaScript truthiness of a possibly-undefined value. -/
def jsTruthyOpt : Option Value → Bool
  | none => false
  | some v => jsTruthy v

/-- JavaScript `a || b` on possibly-undefined values. -/
def jsOrOpt (a b : Option Value) : Option Value :=
  if jsTruthyOpt a then a else b

/-- JavaScript `String(v)` for a defined value (objects only appear as
`[object Object]`, which the engine never relies on). -/
def jsToString : Value → String
  | .vNull => "null"
  | .vBool b => if b then "true" else "false"
  | .vNum i => toString i
  | .vStr s => s
  | .vObj _ => "[object Object]"

/-- JavaScript `String(v)` including the `undefined` case. -/
def jsToStringOpt : Option Value → String
  | none => "undefined"
  | some v => jsToString v

/-- JavaScript numbers restricted to the integers actually used by the
engine, plus `NaN`. -/
inductive JNum where
  | nan : JNum
  | int : Int → JNum
deriving DecidableEq

/-- Multiplication; any `NaN` operand is absorbing. -/
def JNum.mul : JNum → JNum → JNum
  | .int a, .int b => .int (a * b)
  | _, _ => .nan

/-- Addition; any `NaN` operand is absorbing. -/
def JNum.add : JNum → JNum → JNum
  | .int a, .int b => .int (a + b)
  | _, _ => .nan

/-- Strict greater-than; every comparison with `NaN` is false. -/
def JNum.gtb : JNum → JNum → Bool
  | .int a, .int b => decide (a > b)
  | _, _ => false

/-- Strict less-than; every comparison with `NaN` is false. -/
def JNum.ltb : JNum → JNum → Bool
  | .int a, .int b => decide (a < b)
  | _, _ => false

/-- Digits of a decimal literal to a natural number. -/
def digitsToNat (ds : List Char) : Nat :=
  ds.foldl (fun a c => a * 10 + (c.toNat - 48)) 0

/-- Parse an optionally signed decimal integer, the shape of every
numeric string the engine's configs use. -/
def parseSignedInt : List Char → Option Int
  | '-' :: ds =>
      if !ds.isEmpty && ds.all Char.isDigit then some (-(digitsToNat ds : Int)) else none
  | '+' :: ds =>
      if !ds.isEmpty && ds.all Char.isDigit then some (digitsToNat ds : Int) else none
  | ds =>
      if !ds.isEmpty && ds.all Char.isDigit then some (digitsToNat ds : Int) else none

/-- JavaScript `Number(s)` on a string: trimmed-empty is `0`, a decimal
integer parses, anything else is `NaN` (fractional literals do not occur
in the engine's configs and stay outside the model). -/
def strToNum (s : String) : JNum :=
  let t := (s.data.dropWhile Char.isWhitespace).reverse.dropWhile Char.isWhitespace |>.reverse
  if t.isEmpty then .int 0
  else match parseSignedInt t with
    | some i => .int i
    | none => .nan

/-- JavaScript `Number(v)` on a possibly-undefined value. -/
def toNumber : Option Value → JNum
  | none => .nan
  | some .vNull => .int 0
  | some (.vBool b) => .int (if b then 1 else 0)
  | some (.vNum i) => .int i
  | some (.vStr s) => strToNum s
  | some (.vObj _) => .nan

/-- Split a path on `'.'` exactly as JavaScript `path.split(".")` does
(the empty string yields `[""]`). -/
def splitOnDotAux : List Char → List Char → List (List Char)
  | [], acc => [acc.reverse]
  | '.' :: cs, acc => acc.reverse :: splitOnDotAux cs []
  | c :: cs, acc => splitOnDotAux cs (c :: acc)

/-- Embeds `getNestedValue` (workflow-runner.ts:446-453): dotted-path
lookup; any non-object or missing intermediate yields `undefined`. -/
def getNestedValue (obj : List (String × Value)) (path : String) : Option Value :=
  (splitOnDotAux path.data []).foldl
    (fun acc key =>
      match acc with
      | some (.vObj fields) => jsGet fields (String.mk key)
      | _ => none)
    (some (Value.vObj obj))

/-- JavaScript `hay.includes(needle)` (substring test). -/
def strIncludes (needle : List Char) : List Char → Bool
  | [] => needle.isEmpty
  | c :: t => needle.isPrefixOf (c :: t) || strIncludes needle t

/-- Strict equality with the empty string (`actual === ""`). -/
def strictEqEmptyStr : Option Value → Bool
  | some (.vStr s) => s == ""
  | _ => false

/-- Strict equality with `null` (`actual === null`). -/
def strictEqNull : Option Value → Bool
  | some .vNull => true
  | _ => false

/-- The field name a Condition step reads: `String(config.field || "")`
(workflow-runner.ts:408). -/
def condField (config : List (String × Value)) : String :=
  match jsOrOpt (jsGet config "field") (some (.vStr "")) with
  | some v => jsToString v
  | none => "undefined"

/-- The operator of a Condition step: `String(config.operator || "equals")`
(workflow-runner.ts:409). -/
def condOperator (config : List (String × Value)) : String :=
  match jsOrOpt (jsGet config "operator") (some (.vStr "equals")) with
  | some v => jsToString v
  | none => "undefined"

/-- The operator names the evaluator's switch recognizes. -/
def knownOperators : List String :=
  ["equals", "not_equals", "contains", "not_contains",
   "greater_than", "less_than", "is_empty", "is_not_empty"]

/-- Embeds `evaluateCondition` (workflow-runner.ts:404-434): resolve the
field by dotted-path lookup, then dispatch on the operator string; an
unrecognized operator falls through to `false`. -/
def evaluateCondition (config context : List (String × Value)) : Bool :=
  let value := jsGet config "value"
  let actual := getNestedValue context (condField config)
  let op := condOperator config
  if op = "equals" then jsToStringOpt actual == jsToStringOpt value
  else if op = "not_equals" then !(jsToStringOpt actual == jsToStringOpt value)
  else if op = "contains" then
    strIncludes (jsToStringOpt value).data (jsToStringOpt actual).data
  else if op = "not_contains" then
    !(strIncludes (jsToStringOpt value).data (jsToStringOpt actual).data)
  else if op = "greater_than" then JNum.gtb (toNumber actual) (toNumber value)
  else if op = "less_than" then JNum.ltb (toNumber actual) (toNumber value)
  else if op = "is_empty" then
    !jsTruthyOpt actual || strictEqEmptyStr actual || strictEqNull actual || actual.isNone
  else if op = "is_not_empty" then
    jsTruthyOpt actual && !strictEqEmptyStr actual && !strictEqNull actual && !actual.isNone
  else false

/-- C5: the condition evaluator is a pure boolean function; on context
`{count: 5}` the operator `greater_than` with value `3` yields `true`,
`equals` with value `5` yields `true`, `is_empty` yields `false`, and any
operator outside the switch's table yields `false`. -/
theorem c5_condition_evaluator_table :
    (evaluateCondition
      [("field", .vStr "count"), ("operator", .vStr "greater_than"), ("value", .vNum 3)]
      [("count", .vNum 5)] = true)
  ∧ (evaluateCondition
      [("field", .vStr "count"), ("operator", .vStr "equals"), ("value", .vNum 5)]
      [("count", .vNum 5)] = true)
  ∧ (evaluateCondition
      [("field", .vStr "count"), ("operator", .vStr "is_empty")]
      [("count", .vNum 5)] = false)
  ∧ (∀ config context, condOperator config ∉ knownOperators →
      evaluateCondition config context = false) := by
  refine ⟨by decide, by decide, by decide, ?_⟩
  intro config context h
  simp only [knownOperators, List.mem_cons, List.not_mem_nil, or_false, not_or] at h
  obtain ⟨h1, h2, h3, h4, h5, h6, h7, h8⟩ := h
  simp [evaluateCondition, h1, h2, h3, h4, h5, h6, h7, h8]

/-- Witness for C5: the made-up operator `frobnicate` is unknown and the
evaluator returns `false` on it. -/
theorem c5_condition_evaluator_table_witness :
    evaluateCondition [("operator", .vStr "frobnicate")] [] = false :=
  c5_condition_evaluator_table.2.2.2 [("operator", .vStr "frobnicate")] [] (by decide)

/-- C9: when `config.operator` is absent or the empty string, the `||`
default makes the evaluator use `equals`, comparing the string forms of
the resolved field value and `config.value`, instead of the unknown-
operator `false` branch. -/
theorem c9_default_operator_is_equals (config context : List (String × Value))
    (h : jsGet config "operator" = none ∨ jsGet config "operator" = some (.vStr "")) :
    evaluateCondition config context =
      (jsToStringOpt (getNestedValue context (condField config))
        == jsToStringOpt (jsGet config "value")) := by
  have hop : condOperator config = "equals" := by
    rcases h with h | h <;>
      simp [condOperator, jsOrOpt, h, jsTruthyOpt, jsTruthy, jsToString]
  simp [evaluateCondition, hop]

/-- Witness for C9: with no operator configured, field `k` resolving to
`"7"` compares equal to the numeric config value `7`. -/
theorem c9_default_operator_is_equals_witness :
    evaluateCondition [("field", .vStr "k"), ("value", .vNum 7)] [("k", .vStr "7")] = true :=
  (c9_default_operator_is_equals
    [("field", .vStr "k"), ("value", .vNum 7)] [("k", .vStr "7")] (Or.inl rfl)).trans
    (by decide)

/-- Total delay in seconds of a Wait step
(workflow-runner.ts:259-264): each field defaults through
`camelCase || snake_case || 0` before `Number(...)` coercion. -/
def waitTotalSeconds (config : List (String × Value)) : JNum :=
  let m := toNumber (jsOrOpt (jsGet config "delayMinutes")
             (jsOrOpt (jsGet config "delay_minutes") (some (.vNum 0))))
  let h := toNumber (jsOrOpt (jsGet config "delayHours")
             (jsOrOpt (jsGet config "delay_hours") (some (.vNum 0))))
  let d := toNumber (jsOrOpt (jsGet config "delayDays")
             (jsOrOpt (jsGet config "delay_days") (some (.vNum 0))))
  ((m.mul (.int 60)).add (h.mul (.int 3600))).add (d.mul (.int 86400))

/-- Outcome of a Wait step: the duration handed to the durable scheduler
(`wait.for`), if any, plus the step's result record. -/
structure WaitStepOutcome where
  suspendedSeconds : Option Int
  result : List (String × Value)

/-- Embeds `executeWaitStep` (workflow-runner.ts:258-273): suspend only
when the computed total is strictly positive (a `NaN` total fails the
test), otherwise return `{waited:false}` without suspending. -/
def executeWaitStep (config : List (String × Value)) : WaitStepOutcome :=
  match waitTotalSeconds config with
  | .int t =>
    if t > 0 then
      ⟨some t, [("waited", .vBool true), ("seconds", .vNum t)]⟩
    else ⟨none, [("waited", .vBool false), ("reason", .vStr "no delay configured")]⟩
  | .nan => ⟨none, [("waited", .vBool false), ("reason", .vStr "no delay configured")]⟩

/-- On integer delay fields the computed total is exactly
`minutes*60 + hours*3600 + days*86400`. -/
theorem waitTotalSeconds_num (m h d : Int) :
    waitTotalSeconds
      [("delayMinutes", .vNum m), ("delayHours", .vNum h), ("delayDays", .vNum d)] =
      .int (m * 60 + h * 3600 + d * 86400) := by
  rcases eq_or_ne m 0 with hm | hm <;> rcases eq_or_ne h 0 with hh | hh <;>
    rcases eq_or_ne d 0 with hd | hd <;>
    simp [waitTotalSeconds, jsGet, jsOrOpt, jsTruthyOpt, jsTruthy, toNumber,
      JNum.mul, JNum.add, hm, hh, hd]

/-- C7: a Wait step's total delay is `delayMinutes*60 + delayHours*3600 +
delayDays*86400`; a zero (or negative) total returns `{waited:false}`
without suspending, a positive total suspends for the total and returns
`{waited:true, seconds: total}`; in particular `delayMinutes=5` suspends
for 300 seconds. -/
theorem c7_wait_step_delay (m h d : Int) :
    (executeWaitStep
        [("delayMinutes", .vNum m), ("delayHours", .vNum h), ("delayDays", .vNum d)] =
      if m * 60 + h * 3600 + d * 86400 > 0 then
        ⟨some (m * 60 + h * 3600 + d * 86400),
         [("waited", .vBool true), ("seconds", .vNum (m * 60 + h * 3600 + d * 86400))]⟩
      else ⟨none, [("waited", .vBool false), ("reason", .vStr "no delay configured")]⟩)
  ∧ executeWaitStep [("delayMinutes", .vNum 5)] =
      ⟨some 300, [("waited", .vBool true), ("seconds", .vNum 300)]⟩
  ∧ executeWaitStep
      [("delayMinutes", .vNum 0), ("delayHours", .vNum 0), ("delayDays", .vNum 0)] =
      ⟨none, [("waited", .vBool false), ("reason", .vStr "no delay configured")]⟩ := by
  refine ⟨?_, rfl, rfl⟩
  rw [executeWaitStep, waitTotalSeconds_num]

/-- C10: whenever the coerced total is `NaN` (non-numeric delay fields)
or non-positive (negative delays), the Wait step returns `{waited:false}`
without suspending; the function is total, so no configuration makes it
throw. -/
theorem c10_wait_step_guard :
    (∀ config, waitTotalSeconds config = .nan →
        executeWaitStep config =
          ⟨none, [("waited", .vBool false), ("reason", .vStr "no delay configured")]⟩)
  ∧ (∀ config t, waitTotalSeconds config = .int t → t ≤ 0 →
        executeWaitStep config =
          ⟨none, [("waited", .vBool false), ("reason", .vStr "no delay configured")]⟩) := by
  constructor
  · intro config hc
    rw [executeWaitStep, hc]
  · intro config t hc ht
    rw [executeWaitStep, hc]
    exact if_neg (not_lt.mpr ht)

/-- Witness for C10: the non-numeric delay `"soon"` and the negative
delay `-5` minutes both produce `{waited:false}` with no suspension. -/
theorem c10_wait_step_guard_witness :
    executeWaitStep [("delayMinutes", .vStr "soon")] =
        ⟨none, [("waited", .vBool false), ("reason", .vStr "no delay configured")]⟩
  ∧ executeWaitStep [("delayMinutes", .vNum (-5))] =
        ⟨none, [("waited", .vBool false), ("reason", .vStr "no delay configured")]⟩ :=
  ⟨c10_wait_step_guard.1 [("delayMinutes", .vStr "soon")] (by decide),
   c10_wait_step_guard.2 [("delayMinutes", .vNum (-5))] (-300) (by decide) (by decide)⟩

/-- A regex `\w` character: ASCII letters, digits and underscore. -/
def isWordChar (c : Char) : Bool := c.isAlphanum || c == '_'

/-- A character the placeholder pattern `\x7b\x7b(\w+(?:\.\w+)*)\x7d\x7d`
can consume between the braces: word characters and dots. -/
def isPathChar (c : Char) : Bool := isWordChar c || c == '.'

/-- State machine for `\w+(?:\.\w+)*`: the flag records whether the
previous character was a word character (so a dot may follow). -/
def validPathAux : List Char → Bool → Bool
  | [], prevWord => prevWord
  | c :: cs, prevWord =>
    if isWordChar c then validPathAux cs true
    else if c == '.' then prevWord && validPathAux cs false
    else false

/-- A non-empty dotted path of word-character groups, the language of the
placeholder regex's capture group. -/
def validPath (l : List Char) : Bool := validPathAux l false

/-- Attempt to match the placeholder body and closing braces right after
an opening `\x7b\x7b`: greedily consume word/dot characters, then require
`\x7d\x7d` and a well-formed path — exactly when the regex matches here
(the regex cannot backtrack into a successful shorter match because a
proper prefix of the consumed run is never followed by a brace). -/
def scanPlaceholder (cs : List Char) : Option (String × List Char) :=
  match cs.dropWhile isPathChar with
  | '}' :: '}' :: rest =>
    if validPath (cs.takeWhile isPathChar) then
      some (String.mk (cs.takeWhile isPathChar), rest)
    else none
  | _ => none

/-- String form of a resolved placeholder: `undefined` and `null` render
as the empty string (workflow-runner.ts:442). -/
def strOfLookup (context : List (String × Value)) (path : String) : String :=
  match getNestedValue context path with
  | some .vNull => ""
  | some v => jsToString v
  | none => ""

theorem dropWhile_length_le (p : Char → Bool) :
    ∀ l : List Char, (l.dropWhile p).length ≤ l.length := by
  intro l
  induction l with
  | nil => simp
  | cons c cs ih =>
    rw [List.dropWhile_cons]
    split
    · simp only [List.length_cons]; omega
    · simp

theorem scanPlaceholder_length {cs2 : List Char} {path : String} {rest : List Char}
    (h : scanPlaceholder cs2 = some (path, rest)) : rest.length + 2 ≤ cs2.length := by
  unfold scanPlaceholder at h
  have hlen : (cs2.dropWhile isPathChar).length ≤ cs2.length :=
    dropWhile_length_le _ _
  split at h
  next heq =>
    split at h
    · cases h
      rw [heq] at hlen
      simpa using hlen
    · cases h
  next => cases h

/-- One left-to-right scan of JavaScript
`template.replace(regex, fn)` over the character list, with explicit
fuel (one unit per consumed position; the fuel-exhausted arm is dead for
fuel at or above the list length).  At each position: an opening
`\x7b\x7b` followed by a well-formed path and `\x7d\x7d` is replaced and
scanning resumes after the match (the substituted value is never
rescanned); otherwise the character is copied and scanning advances one
position. -/
def interpolateFuel (context : List (String × Value)) : Nat → List Char → List Char
  | 0, l => l
  | _ + 1, [] => []
  | fuel + 1, c :: cs =>
    if c = '{' then
      match cs with
      | c2 :: cs2 =>
        if c2 = '{' then
          match scanPlaceholder cs2 with
          | some (path, rest) =>
            (strOfLookup context path).data ++ interpolateFuel context fuel rest
          | none => '{' :: interpolateFuel context fuel (c2 :: cs2)
        else '{' :: interpolateFuel context fuel (c2 :: cs2)
      | [] => '{' :: interpolateFuel context fuel []
    else c :: interpolateFuel context fuel cs

/-- Embeds `interpolate` (workflow-runner.ts:439-444): replace every
`\x7b\x7b dotted.path \x7d\x7d` occurrence by the string form of the
context lookup (empty for unresolved or null), with no recursive
expansion. -/
def interpolate (template : String) (context : List (String × Value)) : String :=
  String.mk (interpolateFuel context template.data.length template.data)

/-- The scan is insensitive to the exact fuel once it covers the input
length. -/
theorem interpolateFuel_congr (context : List (String × Value)) :
    ∀ (fuel1 fuel2 : Nat) (l : List Char), l.length ≤ fuel1 → l.length ≤ fuel2 →
      interpolateFuel context fuel1 l = interpolateFuel context fuel2 l := by
  intro fuel1
  induction fuel1 with
  | zero =>
    intro fuel2 l h1 _
    have : l = [] := List.length_eq_zero.mp (Nat.le_zero.mp h1)
    subst this
    cases fuel2 <;> rfl
  | succ f1 ih =>
    intro fuel2 l h1 h2
    cases l with
    | nil => cases fuel2 <;> rfl
    | cons c cs =>
      cases fuel2 with
      | zero => simp at h2
      | succ f2 =>
        simp only [List.length_cons, Nat.succ_le_succ_iff] at h1 h2
        simp only [interpolateFuel]
        by_cases hc : c = '{'
        · simp only [if_pos hc]
          cases cs with
          | nil => rw [ih f2 [] (by simp) (by simp)]
          | cons c2 cs2 =>
            simp only [List.length_cons] at h1 h2
            by_cases hc2 : c2 = '{'
            · simp only [if_pos hc2]
              cases hscan : scanPlaceholder cs2 with
              | some pr =>
                obtain ⟨path, rest⟩ := pr
                have hr := scanPlaceholder_length hscan
                simp only [hscan]
                rw [ih f2 rest (by omega) (by omega)]
              | none =>
                simp only [hscan]
                rw [ih f2 (c2 :: cs2) (by simp only [List.length_cons]; omega)
                  (by simp only [List.length_cons]; omega)]
            · simp only [if_neg hc2]
              rw [ih f2 (c2 :: cs2) (by simp only [List.length_cons]; omega)
                (by simp only [List.length_cons]; omega)]
        · simp only [if_neg hc]
          rw [ih f2 cs (by omega) (by omega)]

theorem validPathAux_pathChar :
    ∀ (l : List Char) (b : Bool), validPathAux l b = true → ∀ c ∈ l, isPathChar c = true := by
  intro l
  induction l with
  | nil => intro b _ c hc; cases hc
  | cons x xs ih =>
    intro b h c hc
    simp only [validPathAux] at h
    rcases List.mem_cons.mp hc with hcx | hcxs
    · subst hcx
      by_cases hw : isWordChar c = true
      · simp [isPathChar, hw]
      · rw [if_neg hw] at h
        by_cases hd : (c == '.') = true
        · simp [isPathChar, hd]
        · rw [if_neg hd] at h; cases h
    · by_cases hw : isWordChar x = true
      · rw [if_pos hw] at h
        exact ih true h c hcxs
      · rw [if_neg hw] at h
        by_cases hd : (x == '.') = true
        · rw [if_pos hd] at h
          rw [Bool.and_eq_true] at h
          exact ih false h.2 c hcxs
        · rw [if_neg hd] at h; cases h

theorem takeWhile_path_append (l1 rest : List Char) (h1 : ∀ c ∈ l1, isPathChar c = true) :
    (l1 ++ '}' :: rest).takeWhile isPathChar = l1 ∧
    (l1 ++ '}' :: rest).dropWhile isPathChar = '}' :: rest := by
  induction l1 with
  | nil =>
    have hb : isPathChar '}' = false := by decide
    simp [List.takeWhile_cons, List.dropWhile_cons, hb]
  | cons x xs ih =>
    have hx : isPathChar x = true := h1 x (List.mem_cons_self x xs)
    have ihh := ih (fun c hc => h1 c (List.mem_cons_of_mem x hc))
    simp [List.takeWhile_cons, List.dropWhile_cons, hx, ihh.1, ihh.2]

theorem scanPlaceholder_eq (path post : List Char) (hpath : validPath path = true) :
    scanPlaceholder (path ++ '}' :: '}' :: post) = some (String.mk path, post) := by
  have hmem := validPathAux_pathChar path false hpath
  obtain ⟨ht, hd⟩ := takeWhile_path_append path ('}' :: post) hmem
  unfold scanPlaceholder
  rw [hd, ht]
  simp [hpath]

/-- The scan with its canonical fuel (the input length). -/
def interpolateList (context : List (String × Value)) (l : List Char) : List Char :=
  interpolateFuel context l.length l

theorem interpolateList_cons_ne (context : List (String × Value)) (c : Char)
    (cs : List Char) (hc : ¬ c = '{') :
    interpolateList context (c :: cs) = c :: interpolateList context cs := by
  unfold interpolateList
  simp only [List.length_cons, interpolateFuel, if_neg hc]

theorem interpolateList_placeholder (context : List (String × Value))
    (path post : List Char) (hpath : validPath path = true) :
    interpolateList context ('{' :: '{' :: (path ++ '}' :: '}' :: post)) =
      (strOfLookup context (String.mk path)).data ++ interpolateList context post := by
  unfold interpolateList
  have hscan := scanPlaceholder_eq path post hpath
  simp only [List.length_cons, interpolateFuel, hscan, if_pos]
  rw [interpolateFuel_congr context ((path ++ '}' :: '}' :: post).length + 1)
    post.length post (by simp [List.length_append]; omega) le_rfl]

theorem interpolateList_append (context : List (String × Value))
    (pre path post : List Char)
    (hpre : ∀ c ∈ pre, ¬ c = '{') (hpath : validPath path = true) :
    interpolateList context (pre ++ '{' :: '{' :: (path ++ '}' :: '}' :: post)) =
      pre ++ (strOfLookup context (String.mk path)).data ++ interpolateList context post := by
  induction pre with
  | nil => simpa using interpolateList_placeholder context path post hpath
  | cons x xs ih =>
    have hx : ¬ x = '{' := hpre x (List.mem_cons_self x xs)
    rw [List.cons_append, interpolateList_cons_ne context x _ hx,
      ih (fun c hc => hpre c (List.mem_cons_of_mem x hc))]
    simp

/-- C6: `interpolate` replaces each placeholder occurrence by the string
form of the dotted-path context lookup (empty when the path is
unresolved), scanning resumes after the replaced occurrence and the
substituted value is never rescanned; concretely,
`interpolate("\x7b\x7ba.b\x7d\x7d", \x7ba:\x7bb:"x"\x7d\x7d) = "x"`,
`interpolate("\x7b\x7bmissing\x7d\x7d", \x7b\x7d) = ""`, and a resolved
value that itself looks like a placeholder is returned verbatim. -/
theorem c6_interpolate_spec :
    (∀ (context : List (String × Value)) (pre path post : List Char),
      (∀ c ∈ pre, ¬ c = '{') → validPath path = true →
      interpolate (String.mk (pre ++ '{' :: '{' :: (path ++ '}' :: '}' :: post))) context =
        String.mk (pre ++ (strOfLookup context (String.mk path)).data
          ++ (interpolate (String.mk post) context).data))
  ∧ interpolate (String.mk ['{', '{', 'a', '.', 'b', '}', '}'])
      [("a", .vObj [("b", .vStr "x")])] = "x"
  ∧ interpolate (String.mk ['{', '{', 'm', 'i', 's', 's', 'i', 'n', 'g', '}', '}']) [] = ""
  ∧ interpolate (String.mk ['{', '{', 'a', '}', '}'])
      [("a", .vStr (String.mk ['{', '{', 'b', '}', '}'])), ("b", .vStr "x")] =
      String.mk ['{', '{', 'b', '}', '}'] := by
  refine ⟨?_, by decide, by decide, by decide⟩
  intro context pre path post h1 h2
  exact congrArg String.mk (interpolateList_append context pre path post h1 h2)

/-- Witness for C6: a single placeholder over the binding `a ↦ "y"`. -/
theorem c6_interpolate_spec_witness :
    interpolate (String.mk ([] ++ '{' :: '{' :: (['a'] ++ '}' :: '}' :: [])))
        [("a", .vStr "y")] =
      String.mk ([] ++ (strOfLookup [("a", .vStr "y")] (String.mk ['a'])).data
        ++ (interpolate (String.mk []) [("a", .vStr "y")]).data) :=
  c6_interpolate_spec.1 [("a", .vStr "y")] [] ['a'] [] (by simp) (by decide)

/-- One step of JavaScript object-literal construction: assigning key
`k` overwrites an existing binding in place, otherwise appends. -/
def jsSetKey (obj : List (String × Value)) (k : String) (v : Value) :
    List (String × Value) :=
  if obj.any (fun p => p.1 == k) then
    obj.map (fun p => if p.1 = k then (k, v) else p)
  else obj ++ [(k, v)]

/-- JavaScript spread `\x7b ...base, ...extra \x7d`: each entry of
`extra` is assigned in order on top of `base`, so later keys win. -/
def jsSpread (base extra : List (String × Value)) : List (String × Value) :=
  extra.foldl (fun acc kv => jsSetKey acc kv.1 kv.2) base

/-- The three bindings written first into the run context
(workflow-runner.ts:151-155). -/
def baseContext (orgId orgSlug entityId : Value) : List (String × Value) :=
  [("orgId", orgId), ("orgSlug", orgSlug), ("entityId", entityId)]

/-- Embeds the context literal `\x7b orgId, orgSlug, entityId,
...payload \x7d` of `runAutomation` (workflow-runner.ts:151-156). -/
def buildContext (orgId orgSlug entityId : Value)
    (payload : List (String × Value)) : List (String × Value) :=
  jsSpread (baseContext orgId orgSlug entityId) payload

/-- Last binding of a key in an association list (the one a JS object
literal with repeated keys would keep). -/
def lastAssoc : List (String × Value) → String → Option Value
  | [], _ => none
  | kv :: rest, k =>
    match lastAssoc rest k with
    | some v => some v
    | none => if kv.1 = k then some kv.2 else none

theorem jsGet_append (l1 l2 : List (String × Value)) (key : String) :
    jsGet (l1 ++ l2) key =
      match jsGet l1 key with
      | some v => some v
      | none => jsGet l2 key := by
  induction l1 with
  | nil => simp [jsGet]
  | cons kv rest ih =>
    obtain ⟨k0, v0⟩ := kv
    by_cases hk : k0 = key <;> simp [jsGet, hk, ih]

theorem jsGet_none_of_not_any (obj : List (String × Value)) (k : String)
    (h : obj.any (fun p => p.1 == k) = false) : jsGet obj k = none := by
  induction obj with
  | nil => rfl
  | cons kv rest ih =>
    simp only [List.any_cons, Bool.or_eq_false_iff] at h
    obtain ⟨k0, v0⟩ := kv
    have hne : ¬ k0 = k := by simpa using h.1
    simp [jsGet, hne, ih h.2]

theorem jsGet_map_replace_ne (obj : List (String × Value)) (k : String) (v : Value)
    (key : String) (h : ¬ key = k) :
    jsGet (obj.map (fun p => if p.1 = k then (k, v) else p)) key = jsGet obj key := by
  induction obj with
  | nil => rfl
  | cons kv rest ih =>
    obtain ⟨k0, v0⟩ := kv
    simp only [List.map_cons]
    by_cases hk : k0 = k
    · rw [if_pos hk]
      have hne : ¬ k = key := fun hh => h hh.symm
      have hne0 : ¬ k0 = key := by rw [hk]; exact hne
      simp [jsGet, hne, hne0, ih]
    · rw [if_neg hk]
      by_cases hky : k0 = key <;> simp [jsGet, hky, ih]

theorem jsGet_map_replace_eq (obj : List (String × Value)) (k : String) (v : Value)
    (h : obj.any (fun p => p.1 == k) = true) :
    jsGet (obj.map (fun p => if p.1 = k then (k, v) else p)) k = some v := by
  induction obj with
  | nil => cases h
  | cons kv rest ih =>
    obtain ⟨k0, v0⟩ := kv
    simp only [List.map_cons]
    by_cases hk : k0 = k
    · rw [if_pos hk]
      simp [jsGet]
    · rw [if_neg hk]
      have h2 : rest.any (fun p => p.1 == k) = true := by
        simpa [hk] using h
      simp [jsGet, hk, ih h2]

theorem jsGet_jsSetKey (obj : List (String × Value)) (k : String) (v : Value)
    (key : String) :
    jsGet (jsSetKey obj k v) key = if key = k then some v else jsGet obj key := by
  unfold jsSetKey
  by_cases hany : obj.any (fun p => p.1 == k) = true
  · rw [if_pos hany]
    by_cases hkey : key = k
    · subst hkey
      rw [if_pos rfl, jsGet_map_replace_eq obj key v hany]
    · rw [if_neg hkey, jsGet_map_replace_ne obj k v key hkey]
  · rw [if_neg hany, jsGet_append]
    have hnone : jsGet obj k = none :=
      jsGet_none_of_not_any obj k (Bool.not_eq_true _ ▸ hany)
    by_cases hkey : key = k
    · subst hkey
      rw [hnone]
      simp [jsGet]
    · have hkk : ¬ k = key := fun h' => hkey h'.symm
      rw [if_neg hkey]
      cases hj : jsGet obj key with
      | some v' => rfl
      | none => simp [jsGet, hkk]

theorem jsGet_jsSpread :
    ∀ (extra base : List (String × Value)) (key : String),
      jsGet (jsSpread base extra) key =
        match lastAssoc extra key with
        | some v => some v
        | none => jsGet base key := by
  intro extra
  induction extra with
  | nil => intro base key; simp [jsSpread, lastAssoc]
  | cons kv rest ih =>
    intro base key
    obtain ⟨k0, v0⟩ := kv
    have hstep : jsSpread base ((k0, v0) :: rest) = jsSpread (jsSetKey base k0 v0) rest := rfl
    rw [hstep, ih]
    cases hl : lastAssoc rest key with
    | some v => simp [lastAssoc, hl]
    | none =>
      rw [jsGet_jsSetKey]
      by_cases hk : k0 = key
      · simp [lastAssoc, hl, hk]
      · have h2 : ¬ key = k0 := fun hh => hk hh.symm
        simp [lastAssoc, hl, hk, h2]

/-- C1 (amended): in the run context every payload key takes precedence,
including `orgId`, `orgSlug` and `entityId` — the payload is spread after
the three fixed bindings, so its last binding for any key wins, and the
fixed values survive only for keys the payload does not bind. -/
theorem c1_context_precedence :
    (∀ (orgId orgSlug entityId : Value) (payload : List (String × Value)) (key : String),
      jsGet (buildContext orgId orgSlug entityId payload) key =
        match lastAssoc payload key with
        | some v => some v
        | none => jsGet (baseContext orgId orgSlug entityId) key)
  ∧ (∀ (orgId orgSlug entityId : Value) (payload : List (String × Value)),
      lastAssoc payload "orgId" = none →
        jsGet (buildContext orgId orgSlug entityId payload) "orgId" = some orgId) := by
  constructor
  · intro o s e payload key
    exact jsGet_jsSpread payload (baseContext o s e) key
  · intro o s e payload h
    rw [buildContext, jsGet_jsSpread payload (baseContext o s e) "orgId", h]
    simp [baseContext, jsGet]

/-- Witness for C1: a payload that does not bind `orgId` leaves the run's
own `orgId` visible in the context. -/
theorem c1_context_precedence_witness :
    jsGet (buildContext (.vStr "org-1") (.vStr "vector") (.vStr "42")
      [("body", .vStr "hi")]) "orgId" = some (.vStr "org-1") :=
  c1_context_precedence.2 (.vStr "org-1") (.vStr "vector") (.vStr "42")
    [("body", .vStr "hi")] rfl

/-- C1 counterexample: the event payload is spread after the three fixed
bindings, so a payload key named `orgId` does replace the run's own
value, contrary to the claim. -/
theorem c1_counterexample :
    jsGet (buildContext (.vStr "org-1") (.vStr "vector") (.vStr "42")
        [("orgId", .vStr "payload-org")]) "orgId" = some (.vStr "payload-org")
  ∧ ¬ jsGet (buildContext (.vStr "org-1") (.vStr "vector") (.vStr "42")
        [("orgId", .vStr "payload-org")]) "orgId" = some (.vStr "org-1") := by
  refine ⟨rfl, ?_⟩
  intro h
  rw [show jsGet (buildContext (Value.vStr "org-1") (Value.vStr "vector") (Value.vStr "42")
      [("orgId", Value.vStr "payload-org")]) "orgId" = some (Value.vStr "payload-org")
    from rfl] at h
  injection h with h1
  injection h1 with h2
  exact absurd h2 (by decide)

/-- A row of the `automations` table as the matcher reads it. -/
structure Automation where
  id : String
  org_id : String
  status : String
  triggerType : String
  triggerValue : Option String
deriving DecidableEq

/-- The three unconditional query filters of `loadMatchingAutomations`:
organization, published status and trigger type. -/
def matchesBase (orgId triggerType : String) (a : Automation) : Bool :=
  a.org_id == orgId && a.status == "published" && a.triggerType == triggerType

/-- Embeds `loadMatchingAutomations` (supabase.ts:74-90): the
`triggerValue` equality filter is added to the query only when the
caller passes a trigger value. -/
def loadMatchingAutomations (db : List Automation) (orgId triggerType : String)
    (triggerValue : Option String) : List Automation :=
  match triggerValue with
  | some v => (db.filter (matchesBase orgId triggerType)).filter
      (fun a => a.triggerValue == some v)
  | none => db.filter (matchesBase orgId triggerType)

/-- The event-type to trigger-type table (workflow-runner.ts:38-48). -/
def triggerTypeMap : List (String × String) :=
  [("lead.created", "contact_created"),
   ("pipeline.stage_changed", "pipeline_stage_change"),
   ("quote.viewed", "quote_viewed"),
   ("quote.sent", "quote_sent"),
   ("quote.signed", "quote_signed"),
   ("sms.inbound", "sms_received"),
   ("project.status_changed", "project_status_change"),
   ("project.created", "project_created"),
   ("email.received", "email_received")]

def lookupStr : List (String × String) → String → Option String
  | [], _ => none
  | (k, v) :: rest, key => if k = key then some v else lookupStr rest key

/-- `triggerTypeMap[eventType] || eventType` (workflow-runner.ts:50): an
unmapped event type passes through unchanged. -/
def mapTriggerType (eventType : String) : String :=
  (lookupStr triggerTypeMap eventType).getD eventType

/-- `(payload.triggerValue as string) || undefined`
(workflow-runner.ts:51): a falsy (missing or empty-string) payload value
becomes `undefined`; trigger values travel as strings. -/
def eventTriggerValue (payload : List (String × Value)) : Option String :=
  match jsGet payload "triggerValue" with
  | some (.vStr s) => if s = "" then none else some s
  | _ => none

/-- Observable dispatches and store writes of the Event Router. -/
inductive Effect where
  | dispatchRun (automationId : String) : Effect
  | markProcessed : Effect
deriving DecidableEq

def isMarkProcessed : Effect → Bool
  | .markProcessed => true
  | .dispatchRun _ => false

structure ProcessOutcome where
  matched : Nat
  results : List (String × String)
  effects : List Effect

/-- The automations an event selects. -/
def matchedAutomations (db : List Automation) (orgId eventType : String)
    (payload : List (String × Value)) : List Automation :=
  loadMatchingAutomations db orgId (mapTriggerType eventType) (eventTriggerValue payload)

/-- Embeds `processEvent` (workflow-runner.ts:29-103): zero matches mark
the event processed at once; otherwise each matched automation is
dispatched in turn (a failed run is caught and recorded, not rethrown)
and the single `processed_at` write happens after the loop either way.
`runEnv` supplies each dispatched run's outcome. -/
def processEvent (db : List Automation) (runEnv : String → Except String Unit)
    (orgId eventType : String) (payload : List (String × Value)) : ProcessOutcome :=
  if (matchedAutomations db orgId eventType payload).isEmpty then
    { matched := 0, results := [], effects := [.markProcessed] }
  else
    { matched := (matchedAutomations db orgId eventType payload).length,
      results := (matchedAutomations db orgId eventType payload).map (fun a =>
        (a.id, match runEnv a.id with
               | .ok _ => "completed"
               | .error _ => "failed")),
      effects := (matchedAutomations db orgId eventType payload).map
          (fun a => Effect.dispatchRun a.id) ++ [.markProcessed] }

/-- C2 (amended): when the event carries a trigger value, only published
automations of the same org, trigger type and an equal `triggerValue`
match; when the event carries none, the `triggerValue` filter is skipped
entirely, so automations match regardless of their `triggerValue`. -/
theorem c2_trigger_value_matching :
    (∀ (db : List Automation) (orgId tt v : String) (a : Automation),
      a ∈ loadMatchingAutomations db orgId tt (some v) ↔
        a ∈ db ∧ matchesBase orgId tt a = true ∧ a.triggerValue = some v)
  ∧ (∀ (db : List Automation) (orgId tt : String),
      loadMatchingAutomations db orgId tt none = db.filter (matchesBase orgId tt)) := by
  constructor
  · intro db orgId tt v a
    simp only [loadMatchingAutomations, List.mem_filter, beq_iff_eq, and_assoc]
  · intro db orgId tt
    rfl

/-- Witness for C2: the sample automation passes all filters when the
event carries the equal trigger value. -/
theorem c2_trigger_value_matching_witness :
    { id := "auto-1", org_id := "org-1", status := "published",
      triggerType := "sms_received", triggerValue := some "stage-1" : Automation } ∈
      loadMatchingAutomations
        [{ id := "auto-1", org_id := "org-1", status := "published",
           triggerType := "sms_received", triggerValue := some "stage-1" }]
        "org-1" "sms_received" (some "stage-1") :=
  (c2_trigger_value_matching.1 _ "org-1" "sms_received" "stage-1" _).mpr
    ⟨List.mem_singleton.mpr rfl, by decide, rfl⟩

/-- C2 counterexample: a published automation whose `triggerValue` is
present still matches an event that carries no trigger value at all, so
such an automation is not matched only to events with an equal value. -/
theorem c2_counterexample :
    ({ id := "auto-1", org_id := "org-1", status := "published",
       triggerType := "sms_received", triggerValue := some "stage-1" : Automation
     }).triggerValue = some "stage-1"
  ∧ eventTriggerValue [] = none
  ∧ (processEvent
      [{ id := "auto-1", org_id := "org-1", status := "published",
         triggerType := "sms_received", triggerValue := some "stage-1" }]
      (fun _ => .ok ()) "org-1" "sms.inbound" []).matched = 1 :=
  ⟨rfl, rfl, rfl⟩

theorem filter_mark_dispatch (l : List Automation) :
    (l.map (fun a => Effect.dispatchRun a.id)).filter isMarkProcessed = [] := by
  induction l with
  | nil => rfl
  | cons a rest ih => simp [isMarkProcessed, ih]

/-- C8: every processed event performs exactly one `processed_at` write,
it comes after all dispatches, and it does not depend on the dispatched
runs' outcomes; with zero matches the write still happens and nothing is
dispatched. -/
theorem c8_processed_once (db : List Automation)
    (runEnv : String → Except String Unit) (orgId eventType : String)
    (payload : List (String × Value)) :
    ((processEvent db runEnv orgId eventType payload).effects.filter
        isMarkProcessed).length = 1
  ∧ (processEvent db runEnv orgId eventType payload).effects.getLast? =
      some .markProcessed
  ∧ ((processEvent db runEnv orgId eventType payload).matched = 0 →
      (processEvent db runEnv orgId eventType payload).effects = [.markProcessed]) := by
  by_cases hemp : (matchedAutomations db orgId eventType payload).isEmpty = true
  · refine ⟨?_, ?_, ?_⟩ <;> simp [processEvent, hemp, isMarkProcessed]
  · have hne : matchedAutomations db orgId eventType payload ≠ [] := by
      simpa [List.isEmpty_iff] using hemp
    refine ⟨?_, ?_, ?_⟩
    · simp [processEvent, hemp, List.filter_append, filter_mark_dispatch, isMarkProcessed]
    · simp [processEvent, hemp, List.getLast?_concat]
    · intro h
      simp only [processEvent, hemp, if_neg] at h
      exact absurd (List.length_eq_zero.mp h) hne

/-- A `workflow_steps` row as the run loop reads it (`stepType` and
`actionType` stand for the source's `camelCase || snake_case || ""`
normalization, `stepOrder` likewise). -/
structure WorkflowStep where
  id : Nat
  stepOrder : Nat
  stepType : String
  actionType : String
  config : List (String × Value)

/-- Result record of one step plus the loop's stop signal
(`shouldContinue := false`). -/
structure StepResult where
  result : List (String × Value)
  stopped : Bool

/-- One `workflow_run_steps` insert (workflow-runner.ts:203-230). -/
structure RunStepLog where
  step_id : Nat
  step_order : Nat
  step_type : String
  action_type : String
  status : String
  result : Option (List (String × Value))
  error_message : Option String

def okLog (step : WorkflowStep) (result : List (String × Value)) : RunStepLog :=
  ⟨step.id, step.stepOrder, step.stepType, step.actionType, "completed", some result, none⟩

def failLog (step : WorkflowStep) (msg : String) : RunStepLog :=
  ⟨step.id, step.stepOrder, step.stepType, step.actionType, "failed", none, some msg⟩

/-- The switch over `stepType` (workflow-runner.ts:175-200).  The Action
arm's external side effects live behind `env`, which yields the
dispatcher's result record or the thrown error for a given step id; the
other arms never throw. -/
def executeStep (env : Nat → Except String (List (String × Value)))
    (context : List (String × Value)) (step : WorkflowStep) :
    Except String StepResult :=
  if step.stepType = "Trigger" then
    .ok ⟨[("skipped", .vBool true), ("reason", .vStr "trigger step")], false⟩
  else if step.stepType = "Wait" then
    .ok ⟨(executeWaitStep step.config).result, false⟩
  else if step.stepType = "Action" then
    match env step.id with
    | .ok r => .ok ⟨r, false⟩
    | .error e => .error e
  else if step.stepType = "Condition" then
    if !evaluateCondition step.config context
        && jsTruthyOpt (jsGet step.config "stopOnFalse") then
      .ok ⟨[("conditionPassed", .vBool (evaluateCondition step.config context)),
            ("stopped", .vBool true)], true⟩
    else
      .ok ⟨[("conditionPassed", .vBool (evaluateCondition step.config context))], false⟩
  else
    .ok ⟨[("skipped", .vBool true),
          ("reason", .vStr ("unknown stepType: " ++ step.stepType))], false⟩

/-- What one pass of the for-loop produces: the logs written in order,
`stepsExecuted`, the error of a thrown step, and whether a stop signal
broke the loop. -/
structure ExecOut where
  logs : List RunStepLog
  executed : Nat
  error : Option String
  stopped : Bool

/-- The sequential for-loop of `runAutomation`
(workflow-runner.ts:158-241): a successful step appends a `completed`
log and counts toward `stepsExecuted`; a stop signal breaks the loop; a
thrown step appends a single `failed` log and aborts the rest. -/
def execSteps (env : Nat → Except String (List (String × Value)))
    (context : List (String × Value)) : List WorkflowStep → ExecOut
  | [] => ⟨[], 0, none, false⟩
  | step :: rest =>
    match executeStep env context step with
    | .error msg => ⟨[failLog step msg], 0, some msg, false⟩
    | .ok sr =>
      if sr.stopped then ⟨[okLog step sr.result], 1, none, true⟩
      else
        ⟨okLog step sr.result :: (execSteps env context rest).logs,
         (execSteps env context rest).executed + 1,
         (execSteps env context rest).error,
         (execSteps env context rest).stopped⟩

/-- The durable outcome of one run: step logs, terminal `workflow_runs`
status and error, and `stepsExecuted`. -/
structure RunOutcome where
  stepLogs : List RunStepLog
  runStatus : String
  runError : Option String
  stepsExecuted : Nat

/-- Embeds `runAutomation` (workflow-runner.ts:120-252): zero steps
complete immediately; otherwise the loop runs over the context built
from the fixed keys and the spread payload, and the run ends `failed`
exactly when a step threw (carrying that step's error), `completed`
otherwise. -/
def runAutomation (env : Nat → Except String (List (String × Value)))
    (orgId orgSlug entityId : Value) (payload : List (String × Value))
    (steps : List WorkflowStep) : RunOutcome :=
  if steps.isEmpty then ⟨[], "completed", none, 0⟩
  else
    match (execSteps env (buildContext orgId orgSlug entityId payload) steps).error with
    | some e =>
      ⟨(execSteps env (buildContext orgId orgSlug entityId payload) steps).logs,
       "failed", some e,
       (execSteps env (buildContext orgId orgSlug entityId payload) steps).executed⟩
    | none =>
      ⟨(execSteps env (buildContext orgId orgSlug entityId payload) steps).logs,
       "completed", none,
       (execSteps env (buildContext orgId orgSlug entityId payload) steps).executed⟩

theorem execSteps_append (env : Nat → Except String (List (String × Value)))
    (context : List (String × Value)) (l1 l2 : List WorkflowStep)
    (he : (execSteps env context l1).error = none)
    (hs : (execSteps env context l1).stopped = false) :
    execSteps env context (l1 ++ l2) =
      ⟨(execSteps env context l1).logs ++ (execSteps env context l2).logs,
       (execSteps env context l1).executed + (execSteps env context l2).executed,
       (execSteps env context l2).error,
       (execSteps env context l2).stopped⟩ := by
  induction l1 with
  | nil => simp [execSteps]
  | cons s l1' ih =>
    cases hstep : executeStep env context s with
    | error msg => simp [execSteps, hstep] at he
    | ok sr =>
      cases hstop : sr.stopped with
      | true => simp [execSteps, hstep, hstop] at hs
      | false =>
        have he' : (execSteps env context l1').error = none := by
          simpa [execSteps, hstep, hstop] using he
        have hs' : (execSteps env context l1').stopped = false := by
          simpa [execSteps, hstep, hstop] using hs
        simp [execSteps, hstep, hstop, ih he' hs', ExecOut.mk.injEq]
        omega

/-- Step logs of a loop pass that threw nothing contain no `failed`
record. -/
def failedCount (logs : List RunStepLog) : Nat :=
  (logs.filter (fun l => l.status == "failed")).length

theorem execSteps_logs_completed (env : Nat → Except String (List (String × Value)))
    (context : List (String × Value)) :
    ∀ steps, (execSteps env context steps).error = none →
      ∀ lg ∈ (execSteps env context steps).logs, lg.status = "completed" := by
  intro steps
  induction steps with
  | nil => intro _ lg hlg; cases hlg
  | cons s rest ih =>
    intro he lg hlg
    cases hstep : executeStep env context s with
    | error msg => simp [execSteps, hstep] at he
    | ok sr =>
      cases hstop : sr.stopped with
      | true =>
        simp [execSteps, hstep, hstop] at hlg
        subst hlg
        rfl
      | false =>
        have he' : (execSteps env context rest).error = none := by
          simpa [execSteps, hstep, hstop] using he
        simp [execSteps, hstep, hstop] at hlg
        rcases hlg with hlg | hlg
        · subst hlg; rfl
        · exact ih he' lg hlg

theorem failedCount_eq_zero (logs : List RunStepLog)
    (h : ∀ lg ∈ logs, lg.status = "completed") : failedCount logs = 0 := by
  simp only [failedCount, List.length_eq_zero, List.filter_eq_nil_iff]
  intro a ha
  simp [h a ha]

theorem runAutomation_failed_iff (env : Nat → Except String (List (String × Value)))
    (orgId orgSlug entityId : Value) (payload : List (String × Value))
    (steps : List WorkflowStep) :
    (runAutomation env orgId orgSlug entityId payload steps).runStatus = "failed" ↔
      (execSteps env (buildContext orgId orgSlug entityId payload) steps).error ≠ none := by
  unfold runAutomation
  by_cases hemp : steps.isEmpty = true
  · have hnil : steps = [] := List.isEmpty_iff.mp hemp
    subst hnil
    simp [execSteps]
  · cases herr : (execSteps env (buildContext orgId orgSlug entityId payload) steps).error with
    | some msg => simp [hemp, herr]
    | none => simp [hemp, herr]

/-- Witness for C8: an event matching nothing still yields exactly one
`processed_at` write. -/
theorem c8_processed_once_witness :
    ((processEvent [] (fun _ => .ok ()) "org-1" "lead.created" []).effects.filter
        isMarkProcessed).length = 1 :=
  (c8_processed_once [] (fun _ => .ok ()) "org-1" "lead.created" []).1

theorem failedCount_append (l1 l2 : List RunStepLog) :
    failedCount (l1 ++ l2) = failedCount l1 + failedCount l2 := by
  simp [failedCount, List.filter_append]

theorem failedCount_failLog (step : WorkflowStep) (msg : String) :
    failedCount [failLog step msg] = 1 := by
  simp [failedCount, failLog]

/-- C3: a Condition step that evaluates false while its
`config.stopOnFalse` is truthy is itself logged `completed` with
`stopped:true`, no step after it is executed or logged, and the run
finishes with status `completed` and no error. -/
theorem c3_condition_stop (env : Nat → Except String (List (String × Value)))
    (orgId orgSlug entityId : Value) (payload : List (String × Value))
    (pre post : List WorkflowStep) (cond : WorkflowStep)
    (hty : cond.stepType = "Condition")
    (hfalse : evaluateCondition cond.config
      (buildContext orgId orgSlug entityId payload) = false)
    (hstop : jsTruthyOpt (jsGet cond.config "stopOnFalse") = true)
    (hpre1 : (execSteps env (buildContext orgId orgSlug entityId payload) pre).error = none)
    (hpre2 : (execSteps env (buildContext orgId orgSlug entityId payload) pre).stopped
      = false) :
    runAutomation env orgId orgSlug entityId payload (pre ++ cond :: post) =
      ⟨(execSteps env (buildContext orgId orgSlug entityId payload) pre).logs ++
         [okLog cond [("conditionPassed", .vBool false), ("stopped", .vBool true)]],
       "completed", none,
       (execSteps env (buildContext orgId orgSlug entityId payload) pre).executed + 1⟩ := by
  have hcstep : executeStep env (buildContext orgId orgSlug entityId payload) cond =
      .ok ⟨[("conditionPassed", .vBool false), ("stopped", .vBool true)], true⟩ := by
    simp [executeStep, hty, hfalse, hstop]
  have htail : execSteps env (buildContext orgId orgSlug entityId payload) (cond :: post) =
      ⟨[okLog cond [("conditionPassed", .vBool false), ("stopped", .vBool true)]],
       1, none, true⟩ := by
    simp [execSteps, hcstep]
  have happ := execSteps_append env (buildContext orgId orgSlug entityId payload)
      pre (cond :: post) hpre1 hpre2
  rw [htail] at happ
  have hne : ¬ ((pre ++ cond :: post).isEmpty = true) := by
    simp [List.isEmpty_iff]
  unfold runAutomation
  rw [if_neg hne, happ]

/-- Witness for C3: a run whose first step is a false Condition with
`stopOnFalse` stops there and completes; the pending Action never runs. -/
theorem c3_condition_stop_witness :
    runAutomation (fun _ => .ok []) (.vStr "org-1") (.vStr "vector") (.vStr "42")
        [("x", .vStr "2")]
        ([] ++ (⟨1, 1, "Condition", "",
            [("field", .vStr "x"), ("value", .vStr "1"), ("stopOnFalse", .vBool true)]⟩ :
          WorkflowStep) :: [⟨2, 2, "Action", "send_sms", []⟩]) =
      ⟨(execSteps (fun _ => .ok []) (buildContext (.vStr "org-1") (.vStr "vector")
           (.vStr "42") [("x", .vStr "2")]) []).logs ++
         [okLog ⟨1, 1, "Condition", "",
             [("field", .vStr "x"), ("value", .vStr "1"), ("stopOnFalse", .vBool true)]⟩
           [("conditionPassed", .vBool false), ("stopped", .vBool true)]],
       "completed", none,
       (execSteps (fun _ => .ok []) (buildContext (.vStr "org-1") (.vStr "vector")
           (.vStr "42") [("x", .vStr "2")]) []).executed + 1⟩ :=
  c3_condition_stop (fun _ => .ok []) (.vStr "org-1") (.vStr "vector") (.vStr "42")
    [("x", .vStr "2")] [] [⟨2, 2, "Action", "send_sms", []⟩]
    ⟨1, 1, "Condition", "",
      [("field", .vStr "x"), ("value", .vStr "1"), ("stopOnFalse", .vBool true)]⟩
    rfl (by decide) rfl rfl rfl

/-- C4: a step whose execution throws produces exactly one `failed` step
log carrying the error message, the run is set to `failed` with the same
error, no later step executes or logs, and `failed` arises exactly when
some step threw. -/
theorem c4_step_failure (env : Nat → Except String (List (String × Value)))
    (orgId orgSlug entityId : Value) (payload : List (String × Value))
    (pre post : List WorkflowStep) (stp : WorkflowStep) (msg : String)
    (hpre1 : (execSteps env (buildContext orgId orgSlug entityId payload) pre).error = none)
    (hpre2 : (execSteps env (buildContext orgId orgSlug entityId payload) pre).stopped
      = false)
    (hfail : executeStep env (buildContext orgId orgSlug entityId payload) stp
      = .error msg) :
    (runAutomation env orgId orgSlug entityId payload (pre ++ stp :: post) =
      ⟨(execSteps env (buildContext orgId orgSlug entityId payload) pre).logs ++
         [failLog stp msg],
       "failed", some msg,
       (execSteps env (buildContext orgId orgSlug entityId payload) pre).executed⟩)
  ∧ failedCount (runAutomation env orgId orgSlug entityId payload
      (pre ++ stp :: post)).stepLogs = 1
  ∧ (∀ steps2, (runAutomation env orgId orgSlug entityId payload steps2).runStatus
        = "failed" ↔
      (execSteps env (buildContext orgId orgSlug entityId payload) steps2).error
        ≠ none) := by
  have htail : execSteps env (buildContext orgId orgSlug entityId payload) (stp :: post) =
      ⟨[failLog stp msg], 0, some msg, false⟩ := by
    simp [execSteps, hfail]
  have happ := execSteps_append env (buildContext orgId orgSlug entityId payload)
      pre (stp :: post) hpre1 hpre2
  rw [htail] at happ
  have hne : ¬ ((pre ++ stp :: post).isEmpty = true) := by
    simp [List.isEmpty_iff]
  have hmain : runAutomation env orgId orgSlug entityId payload (pre ++ stp :: post) =
      ⟨(execSteps env (buildContext orgId orgSlug entityId payload) pre).logs ++
         [failLog stp msg],
       "failed", some msg,
       (execSteps env (buildContext orgId orgSlug entityId payload) pre).executed⟩ := by
    unfold runAutomation
    rw [if_neg hne, happ]
    simp
  refine ⟨hmain, ?_, ?_⟩
  · rw [hmain]
    have hzero : failedCount
        (execSteps env (buildContext orgId orgSlug entityId payload) pre).logs = 0 :=
      failedCount_eq_zero _ (execSteps_logs_completed env _ pre hpre1)
    show failedCount ((execSteps env (buildContext orgId orgSlug entityId payload)
        pre).logs ++ [failLog stp msg]) = 1
    rw [failedCount_append, hzero, failedCount_failLog]
  · intro steps2
    exact runAutomation_failed_iff env orgId orgSlug entityId payload steps2

/-- Witness for C4: a throwing Action as the first step fails the run at
once; the pending Wait step never runs. -/
theorem c4_step_failure_witness :
    runAutomation (fun _ => .error "boom") (.vStr "org-1") (.vStr "vector") (.vStr "42")
        [] ([] ++ (⟨1, 1, "Action", "send_sms", []⟩ : WorkflowStep) ::
          [⟨2, 2, "Wait", "", []⟩]) =
      ⟨(execSteps (fun _ => .error "boom") (buildContext (.vStr "org-1") (.vStr "vector")
           (.vStr "42") []) []).logs ++
         [failLog ⟨1, 1, "Action", "send_sms", []⟩ "boom"],
       "failed", some "boom",
       (execSteps (fun _ => .error "boom") (buildContext (.vStr "org-1") (.vStr "vector")
           (.vStr "42") []) []).executed⟩ :=
  (c4_step_failure (fun _ => .error "boom") (.vStr "org-1") (.vStr "vector") (.vStr "42")
    [] [] [⟨2, 2, "Wait", "", []⟩] ⟨1, 1, "Action", "send_sms", []⟩ "boom"
    rfl rfl rfl).1

end VectorCrm
